import Mathlib

/-!
Shallow embedding of `src/server/project.ts` (namespace `ts.server`):
the project membership and versioning model of the tsserver project layer.

External collaborators (the analysis engine / language service, the
script-info registry, the host) are modelled as explicit inputs: the
program produced by a recomputation is an argument of `updateGraph`,
the registry and the default-library resolver live in an `Env` record,
and the host's watch registrations are an explicit `HostState`.

JavaScript `undefined` is modelled with `Option` (`none` = `undefined`),
so a function that can fall through without `return` yields `Option _`.
-/

namespace TsServer

/-- A unit of source content, owned by the external script-info registry.
`fileName` is the normalized path, `path` the canonical (case-folded) path
used as the key of `rootFilesMap`. -/
structure ScriptInfo where
  fileName : String
  path : String
  isOpen : Bool
deriving DecidableEq, Repr

/-- A source file of a program, as seen through `getSourceFiles` (which
yields `fileName`s) and `getSourceFileByPath` (which looks up by `path`). -/
structure SourceFile where
  fileName : String
  path : String
deriving DecidableEq, Repr

/-- Opaque handle returned by the analysis engine's `getProgram()`.
`progId` stands for JavaScript reference identity (`!==`); the engine
allocates a fresh id whenever it builds a new program object.
`structureIsReused` is the flag the engine sets on the OLD program when the
new program reused its structure. -/
structure Program where
  progId : Nat
  sourceFiles : List SourceFile
  structureIsReused : Bool
deriving DecidableEq, Repr

/-- Compiler options record. `allowNonTsExtensions` and `allowJs` are the
two fields the project layer touches; `extra` stands for every other
property of the record. A JavaScript object is truthy even when it has no
properties, so an options argument is `Option CompilerOpts` (`none` =
`undefined`/`null`) and the all-defaults record models `{}`. -/
structure CompilerOpts where
  allowNonTsExtensions : Bool
  allowJs : Bool
  extra : List (String × String)
deriving DecidableEq, Repr

inductive ProjectKind where
  | Inferred
  | Configured
  | External
deriving DecidableEq, Repr

/-- One entry of a `FileMap<ScriptInfo>`: canonical path to script info. -/
abbrev FileMapEntries := List (String × ScriptInfo)

/-- Modelled from the spec: `createFileMap`'s `contains` (file `utilities`
of this repository, not under `src/`) — membership test on the key set. -/
def fmContains (m : FileMapEntries) (k : String) : Bool :=
  m.any (fun e => e.1 == k)

/-- Modelled from the spec: `createFileMap`'s `set` — JavaScript object
assignment: overwrite the existing key or append a new entry. -/
def fmSet (m : FileMapEntries) (k : String) (v : ScriptInfo) : FileMapEntries :=
  if fmContains m k then m.map (fun e => if e.1 == k then (k, v) else e)
  else m ++ [(k, v)]

/-- Modelled from the spec: `createFileMap`'s `remove` — delete the key. -/
def fmRemove (m : FileMapEntries) (k : String) : FileMapEntries :=
  m.filter (fun e => !(e.1 == k))

/-- Modelled from the spec: `copyListRemovingItem` (core utilities, not
under `src/`) — copy of the list without the given item, comparing by
identity. -/
def copyListRemovingItem (item : ScriptInfo) (list : List ScriptInfo) : List ScriptInfo :=
  list.filter (fun e => !(e == item))

/-- Project state. Fields mirror the private fields of `class Project`.
`lsHostSettings` stands for the compilation settings held by the active
language-service host binding (`lsHost.setCompilationSettings`).
`lastReportedFileNames` keeps the key set of the memoized `Map<string>`. -/
structure Project where
  projectKind : ProjectKind
  projectName : String
  rootFiles : List ScriptInfo
  rootFilesMap : FileMapEntries
  program : Option Program
  lastReportedFileNames : Option (List String)
  lastReportedVersion : Nat
  projectStructureVersion : Nat
  projectStateVersion : Nat
  languageServiceEnabled : Bool
  compilerOptions : Option CompilerOpts
  lsHostSettings : Option CompilerOpts
deriving DecidableEq, Repr

/-- External collaborators that the project queries. -/
structure Env where
  /-- `projectService.getScriptInfoForNormalizedPath`: the registry keeps at
  most one `ScriptInfo` per normalized path. -/
  registry : String → Option ScriptInfo
  /-- `getDefaultLibFilePath(options)`, engine-resolved; `none` models a
  falsy result. -/
  getDefaultLibFilePath : CompilerOpts → Option String

namespace Project

/-- `markAsDirty`: bump the project state version. -/
def markAsDirty (s : Project) : Project :=
  { s with projectStateVersion := s.projectStateVersion + 1 }

/-- `getProjectVersion`: the state version as a string token. -/
def getProjectVersion (s : Project) : String :=
  toString s.projectStateVersion

/-- `isRoot`: membership of the info's path in `rootFilesMap`. -/
def isRoot (s : Project) (info : ScriptInfo) : Bool :=
  fmContains s.rootFilesMap info.path

/-- `addRoot`: no-op when already a root; otherwise push onto `rootFiles`,
insert into `rootFilesMap` and mark dirty. (`info.attachToProject(this)` is
a registry-side effect with no project-state component.) -/
def addRoot (s : Project) (info : ScriptInfo) : Project :=
  if isRoot s info then s
  else
    markAsDirty { s with
      rootFiles := s.rootFiles ++ [info],
      rootFilesMap := fmSet s.rootFilesMap info.path info }

/-- `removeRoot` (private): when the info is a root, drop it from both root
structures (and tell the binding, a no-op on project state); report whether
it was a root. -/
def removeRoot (s : Project) (info : ScriptInfo) : Bool × Project :=
  if isRoot s info then
    (true, { s with
      rootFiles := copyListRemovingItem info s.rootFiles,
      rootFilesMap := fmRemove s.rootFilesMap info.path })
  else (false, s)

/-- `removeReferencedFile` (private): forwards to the binding; no
project-state component. -/
def removeReferencedFile (s : Project) (_info : ScriptInfo) : Project :=
  s

/-- `removeFile`: try `removeRoot`, else `removeReferencedFile`; optionally
detach (registry-side effect); always mark dirty. -/
def removeFile (s : Project) (info : ScriptInfo) (_detachFromProject : Bool) : Project :=
  let r := removeRoot s info
  let s1 := if r.1 then r.2 else removeReferencedFile r.2 info
  markAsDirty s1

/-- `setCompilerOptions`: `if (compilerOptions)` — any present record (even
one with no properties) is accepted: force `allowNonTsExtensions`, store,
push into the binding, mark dirty. Only an absent argument is a no-op. -/
def setCompilerOptions (s : Project) (compilerOptions : Option CompilerOpts) : Project :=
  match compilerOptions with
  | none => s
  | some opts =>
    let opts1 := { opts with allowNonTsExtensions := true }
    markAsDirty { s with compilerOptions := some opts1, lsHostSettings := some opts1 }

/-- `updateGraph`: no-op when the language service is disabled; otherwise
take the freshly computed program and bump `projectStructureVersion` when
there was no previous program, or the new program is a different object and
the old program's structure was not reused. -/
def updateGraph (s : Project) (newProgram : Program) : Project :=
  if s.languageServiceEnabled = false then s
  else
    { s with
      program := some newProgram,
      projectStructureVersion :=
        match s.program with
        | none => s.projectStructureVersion + 1
        | some oldProgram =>
          if oldProgram ≠ newProgram ∧ oldProgram.structureIsReused = false
          then s.projectStructureVersion + 1
          else s.projectStructureVersion }

/-- `getRootFiles`: the root file names in order. -/
def getRootFiles (s : Project) : List String :=
  s.rootFiles.map ScriptInfo.fileName

/-- `getFileNames`: empty without a program; with the language service
disabled, the roots plus the default library resolved from the compiler
options; otherwise the file names of the program's source files. -/
def getFileNames (env : Env) (s : Project) : List String :=
  match s.program with
  | none => []
  | some program =>
    if s.languageServiceEnabled = false then
      let rootFiles := getRootFiles s
      match s.compilerOptions with
      | none => rootFiles
      | some opts =>
        match env.getDefaultLibFilePath opts with
        | none => rootFiles
        | some defaultLibrary => rootFiles ++ [defaultLibrary]
    else program.sourceFiles.map SourceFile.fileName

/-- `containsScriptInfo`: `this.program && getSourceFileByPath(info.path)
!== undefined` — with no program the expression IS `this.program`, i.e.
`undefined`, so the result is `Option Bool` with `none` for that case. -/
def containsScriptInfo (s : Project) (info : ScriptInfo) : Option Bool :=
  match s.program with
  | none => none
  | some program =>
    some (program.sourceFiles.find? (fun sf => sf.path == info.path)).isSome

/-- `containsFile`: look the file up in the registry; when present and the
open requirement holds, answer `containsScriptInfo`; otherwise fall through
(`undefined`). -/
def containsFile (env : Env) (s : Project) (filename : String) (requireOpen : Bool) : Option Bool :=
  match env.registry filename with
  | some info =>
    if requireOpen = false ∨ info.isOpen = true then containsScriptInfo s info
    else none
  | none => none

/-- The `info` summary record of `protocol.ProjectFiles`. -/
structure ProjectInfo where
  projectName : String
  version : Nat
  isInferred : Bool
deriving DecidableEq, Repr

/-- The `changes` payload: added / removed file names. -/
structure ProjectChanges where
  added : List String
  removed : List String
deriving DecidableEq, Repr

/-- `protocol.ProjectFiles`: summary plus optional full list or diff. -/
structure ProjectFiles where
  info : ProjectInfo
  files : Option (List String)
  changes : Option ProjectChanges
deriving DecidableEq, Repr

/-- Modelled from the spec: `arrayToMap(xs, x => x)` (core utilities, not
under `src/`) keyed by the element itself — its key set in first-insertion
order, i.e. `dedup`. -/
def arrayToMapSelf (xs : List String) : List String :=
  xs.dedup

/-- `getChangesSinceVersion`: with a memoized baseline and a matching
`lastKnownVersion`, either report "no change" (structure version still equal
to the last reported one) or a set-membership diff against the baseline;
otherwise report the full current file list. Both reporting branches
re-memoize the current key set and structure version. Returns the response
together with the updated project state. -/
def getChangesSinceVersion (env : Env) (s : Project) (lastKnownVersion : Option Nat) :
    ProjectFiles × Project :=
  let info : ProjectInfo :=
    { projectName := s.projectName,
      version := s.projectStructureVersion,
      isInferred := s.projectKind = ProjectKind.Inferred }
  if s.lastReportedFileNames.isSome ∧ lastKnownVersion = some s.lastReportedVersion then
    if s.projectStructureVersion = s.lastReportedVersion then
      ({ info := info, files := none, changes := none }, s)
    else
      let lastReportedFileNames := s.lastReportedFileNames.getD []
      let currentFiles := arrayToMapSelf (getFileNames env s)
      let added := currentFiles.filter (fun id => !(lastReportedFileNames.contains id))
      let removed := lastReportedFileNames.filter (fun id => !(currentFiles.contains id))
      ({ info := info, files := none, changes := some { added := added, removed := removed } },
       { s with
         lastReportedFileNames := some currentFiles,
         lastReportedVersion := s.projectStructureVersion })
  else
    let projectFileNames := getFileNames env s
    ({ info := info, files := some projectFileNames, changes := none },
     { s with
       lastReportedFileNames := some (arrayToMapSelf projectFileNames),
       lastReportedVersion := s.projectStructureVersion })

end Project

/-- Host-side state for watch registrations: ids handed out and the set of
watch registrations performed (`watchFile` / `watchDirectory`). Handles are
never reused. -/
structure HostState where
  nextWatchId : Nat
  registered : List Nat
deriving DecidableEq, Repr

/-- A host watch registration: returns a fresh handle and records it. -/
def hostWatch (h : HostState) : Nat × HostState :=
  (h.nextWatchId,
   { nextWatchId := h.nextWatchId + 1, registered := h.registered ++ [h.nextWatchId] })

/-- Modelled from the spec: `getDirectoryPath` (core utilities, not under
`src/`) — the containing directory of a normalized path: everything before
the last path separator. -/
def getDirectoryPath (p : String) : String :=
  String.mk (((p.toList.reverse.dropWhile (fun c => !(c == '/'))).tail).reverse)

/-- ConfiguredProject-specific state: the config file identity, the three
watch holdings and the wildcard-directory configuration (`Map` from
directory to its `WatchDirectoryFlags`, recursive = flag ≠ 0). The base
`Project` state is independent of the watch operations and omitted here. -/
structure ConfiguredProject where
  configFileName : String
  projectFileWatcher : Option Nat
  directoryWatcher : Option Nat
  directoriesWatchedForWildcards : Option (List (String × Nat))
  wildcardDirectories : Option (List (String × Nat))
deriving DecidableEq, Repr

namespace ConfiguredProject

/-- `watchConfigFile`: unconditionally registers a host file watch on the
config file and stores the handle — there is no guard against a previous
registration. -/
def watchConfigFile (cp : ConfiguredProject) (h : HostState) :
    ConfiguredProject × HostState :=
  let r := hostWatch h
  ({ cp with projectFileWatcher := some r.1 }, r.2)

/-- `watchConfigDirectory`: returns early when a directory watcher is
already stored; otherwise registers a recursive host watch on the config
file's directory and stores the handle. -/
def watchConfigDirectory (cp : ConfiguredProject) (h : HostState) :
    ConfiguredProject × HostState :=
  if cp.directoryWatcher.isSome then (cp, h)
  else
    let r := hostWatch h
    ({ cp with directoryWatcher := some r.1 }, r.2)

/-- `watchWildcards`: returns early only when no wildcard directories are
configured; otherwise registers, for every wildcard directory other than
the config directory itself (the spec: "unless that directory *is* the
configuration directory", via `comparePaths`), a host watch, and REPLACES
`directoriesWatchedForWildcards` with the freshly built map — previous
registrations are not consulted. -/
def watchWildcards (cp : ConfiguredProject) (h : HostState) :
    ConfiguredProject × HostState :=
  match cp.wildcardDirectories with
  | none => (cp, h)
  | some wildcardDirectories =>
    let configDirectoryPath := getDirectoryPath cp.configFileName
    let r := wildcardDirectories.foldl
      (fun (acc : List (String × Nat) × HostState) entry =>
        if entry.1 ≠ configDirectoryPath then
          let w := hostWatch acc.2
          (acc.1 ++ [(entry.1, w.1)], w.2)
        else acc)
      ([], h)
    ({ cp with directoriesWatchedForWildcards := some r.1 }, r.2)

end ConfiguredProject

/-- One public mutating operation on a project. `updateGraph` carries the
program the engine would return; `getChanges` carries the caller's
`lastKnownVersion`. -/
inductive POp where
  | addRoot (info : ScriptInfo)
  | removeFile (info : ScriptInfo) (detach : Bool)
  | setCompilerOptions (opts : Option CompilerOpts)
  | updateGraph (newProgram : Program)
  | getChanges (lastKnownVersion : Option Nat)
deriving Repr

/-- Apply one operation to the project state. -/
def applyOp (env : Env) (s : Project) : POp → Project
  | POp.addRoot info => s.addRoot info
  | POp.removeFile info detach => s.removeFile info detach
  | POp.setCompilerOptions opts => s.setCompilerOptions opts
  | POp.updateGraph p => s.updateGraph p
  | POp.getChanges v => (s.getChangesSinceVersion env v).2

/-- Run a sequence of operations left to right. -/
def runOps (env : Env) (s : Project) (ops : List POp) : Project :=
  ops.foldl (applyOp env) s

/-- Root-only operation alphabet for the root/index invariant: the script
infos handed to `addRoot`/`removeFile` always come from the registry, which
keeps exactly one `ScriptInfo` per path, so an operation is identified by
the path it looks up. -/
inductive RootOp where
  | addRootOp (path : String)
  | removeFileOp (path : String) (detach : Bool)
deriving Repr

/-- Apply a root operation, resolving the path through the registry `reg`. -/
def applyRootOp (reg : String → ScriptInfo) (s : Project) : RootOp → Project
  | RootOp.addRootOp p => s.addRoot (reg p)
  | RootOp.removeFileOp p d => s.removeFile (reg p) d

/-- Run a sequence of root operations left to right. -/
def runRootOps (reg : String → ScriptInfo) (s : Project) (ops : List RootOp) : Project :=
  ops.foldl (applyRootOp reg) s

/-- Representation invariant tying `rootFiles` to the registry `reg`:
paths are duplicate-free, every stored info is the registry's info for its
path, and the map's key set is exactly the path set of `rootFiles`. -/
def RootsConsistent (reg : String → ScriptInfo) (s : Project) : Prop :=
  (s.rootFiles.map ScriptInfo.path).Nodup
  ∧ (∀ i ∈ s.rootFiles, i = reg i.path)
  ∧ (∀ p, fmContains s.rootFilesMap p = true ↔ p ∈ s.rootFiles.map ScriptInfo.path)

/-- The invariant the spec states: the index's key set equals the path set
of `rootFiles`, with no duplicates. -/
def RootIndexInvariant (s : Project) : Prop :=
  (∀ p, fmContains s.rootFilesMap p = true ↔ p ∈ s.rootFiles.map ScriptInfo.path)
  ∧ (s.rootFiles.map ScriptInfo.path).Nodup

/-! ### Concrete fixtures used by witnesses and counterexamples -/

def infoA : ScriptInfo := { fileName := "a.ts", path := "a.ts", isOpen := true }

def env0 : Env :=
  { registry := fun p => if p = "a.ts" then some infoA else none,
    getDefaultLibFilePath := fun _ => some "lib.d.ts" }

def reg0 : String → ScriptInfo := fun p => { fileName := p, path := p, isOpen := true }

def baseProject : Project :=
  { projectKind := ProjectKind.Inferred,
    projectName := "p0",
    rootFiles := [],
    rootFilesMap := [],
    program := none,
    lastReportedFileNames := none,
    lastReportedVersion := 0,
    projectStructureVersion := 0,
    projectStateVersion := 0,
    languageServiceEnabled := true,
    compilerOptions := some { allowNonTsExtensions := true, allowJs := true, extra := [] },
    lsHostSettings := some { allowNonTsExtensions := true, allowJs := true, extra := [] } }

/-- A project that already has `infoA` as a root, state version 7. -/
def rootedProject : Project :=
  { baseProject with
    rootFiles := [infoA],
    rootFilesMap := [("a.ts", infoA)],
    projectStateVersion := 7 }

def progA : Program :=
  { progId := 0, sourceFiles := [{ fileName := "a.ts", path := "a.ts" }], structureIsReused := false }

def progB : Program :=
  { progId := 1, sourceFiles := [{ fileName := "a.ts", path := "a.ts" }], structureIsReused := false }

/-- A project whose last report was version 1 with files `a.ts`, `b.ts`,
whose structure version has moved to 2, and whose current program holds
`a.ts` and `c.ts`. -/
def diffProject : Project :=
  { baseProject with
    lastReportedFileNames := some ["a.ts", "b.ts"],
    lastReportedVersion := 1,
    projectStructureVersion := 2,
    program := some { progId := 3,
                      sourceFiles := [{ fileName := "a.ts", path := "a.ts" },
                                      { fileName := "c.ts", path := "c.ts" }],
                      structureIsReused := false } }

def emptyCompilerOpts : CompilerOpts := { allowNonTsExtensions := false, allowJs := false, extra := [] }

def host0 : HostState := { nextWatchId := 0, registered := [] }

def cp0 : ConfiguredProject :=
  { configFileName := "proj/tsconfig.json",
    projectFileWatcher := none,
    directoryWatcher := none,
    directoriesWatchedForWildcards := none,
    wildcardDirectories := some [("proj/src", 1)] }

/-- A project with the language service disabled. -/
def disabledProject : Project :=
  { baseProject with languageServiceEnabled := false }

/-- A project that already computed `progA`, structure version 5. -/
def structProject : Project :=
  { baseProject with program := some progA, projectStructureVersion := 5 }

/-- A project with stored options and state version 3. -/
def optSProject : Project :=
  { baseProject with projectStateVersion := 3 }

/-- A project whose current program is `progA`. -/
def progProject : Project :=
  { baseProject with program := some progA }

/-! ### Helper lemmas on the file-map model -/

lemma fmContains_eq (m : FileMapEntries) (j : String) :
    fmContains m j = true ↔ ∃ e ∈ m, e.1 = j := by
  simp [fmContains, List.any_eq_true]

lemma fmContains_fmSet_iff (m : FileMapEntries) (k : String) (v : ScriptInfo) (j : String) :
    fmContains (fmSet m k v) j = true ↔ (j = k ∨ fmContains m j = true) := by
  simp only [fmContains_eq, fmSet]
  by_cases hk : fmContains m k
  all_goals rw [fmContains_eq] at hk
  · rw [if_pos hk]
    constructor
    · rintro ⟨e, he, rfl⟩
      rw [List.mem_map] at he
      obtain ⟨a, ha, rfl⟩ := he
      by_cases hak : a.1 == k
      · left; simp [hak]
      · right; exact ⟨a, ha, by simp [hak]⟩
    · rintro (rfl | ⟨a, ha, rfl⟩)
      · obtain ⟨a, ha, hak⟩ := hk
        exact ⟨(j, v), List.mem_map.mpr ⟨a, ha, by simp [hak]⟩, rfl⟩
      · refine ⟨_, List.mem_map.mpr ⟨a, ha, rfl⟩, ?_⟩
        by_cases hak : a.1 == k
        · simpa [hak] using (beq_iff_eq.mp hak).symm
        · simp [hak]
  · rw [if_neg hk]
    constructor
    · rintro ⟨e, he, rfl⟩
      rcases List.mem_append.mp he with he | he
      · exact Or.inr ⟨e, he, rfl⟩
      · rw [List.mem_singleton] at he
        subst he
        exact Or.inl rfl
    · rintro (rfl | ⟨a, ha, rfl⟩)
      · exact ⟨(j, v), List.mem_append.mpr (Or.inr (List.mem_singleton.mpr rfl)), rfl⟩
      · exact ⟨a, List.mem_append.mpr (Or.inl ha), rfl⟩

lemma fmContains_fmRemove_iff (m : FileMapEntries) (k j : String) :
    fmContains (fmRemove m k) j = true ↔ (fmContains m j = true ∧ j ≠ k) := by
  simp only [fmContains, fmRemove, List.any_eq_true, List.mem_filter,
    Bool.not_eq_true', beq_eq_false_iff_ne, beq_iff_eq]
  constructor
  · rintro ⟨e, ⟨he, hek⟩, rfl⟩
    exact ⟨⟨e, he, rfl⟩, hek⟩
  · rintro ⟨⟨e, he, rfl⟩, hjk⟩
    exact ⟨e, ⟨he, hjk⟩, rfl⟩

/-! ### Helper lemmas on version counters -/

lemma updateGraph_disabled (s : Project) (p : Program)
    (h : s.languageServiceEnabled = false) : Project.updateGraph s p = s := by
  simp [Project.updateGraph, h]

lemma structureVersion_addRoot (s : Project) (i : ScriptInfo) :
    (Project.addRoot s i).projectStructureVersion = s.projectStructureVersion := by
  by_cases h : Project.isRoot s i = true
  · simp [Project.addRoot, h]
  · simp [Project.addRoot, h, Project.markAsDirty]

lemma structureVersion_removeFile (s : Project) (i : ScriptInfo) (d : Bool) :
    (Project.removeFile s i d).projectStructureVersion = s.projectStructureVersion := by
  by_cases h : Project.isRoot s i = true
  · simp [Project.removeFile, Project.removeRoot, Project.removeReferencedFile, h,
      Project.markAsDirty]
  · simp [Project.removeFile, Project.removeRoot, Project.removeReferencedFile, h,
      Project.markAsDirty]

lemma structureVersion_setCompilerOptions (s : Project) (o : Option CompilerOpts) :
    (Project.setCompilerOptions s o).projectStructureVersion = s.projectStructureVersion := by
  cases o <;> simp [Project.setCompilerOptions, Project.markAsDirty]

lemma structureVersion_getChanges (env : Env) (s : Project) (v : Option Nat) :
    (Project.getChangesSinceVersion env s v).2.projectStructureVersion
      = s.projectStructureVersion := by
  simp only [Project.getChangesSinceVersion]
  split
  · split <;> rfl
  · rfl

lemma structureVersion_applyOp_le (env : Env) (op : POp) (s : Project) :
    s.projectStructureVersion ≤ (applyOp env s op).projectStructureVersion := by
  cases op with
  | addRoot i => exact le_of_eq (structureVersion_addRoot s i).symm
  | removeFile i d => exact le_of_eq (structureVersion_removeFile s i d).symm
  | setCompilerOptions o => exact le_of_eq (structureVersion_setCompilerOptions s o).symm
  | getChanges v => exact le_of_eq (structureVersion_getChanges env s v).symm
  | updateGraph p =>
    simp only [applyOp, Project.updateGraph]
    split
    · exact le_refl _
    · cases hq : s.program with
      | none => simp [hq, Nat.le_succ]
      | some q =>
        simp only [hq]
        split
        · exact Nat.le_succ _
        · exact le_refl _

lemma stateVersion_addRoot_new (s : Project) (i : ScriptInfo)
    (h : Project.isRoot s i = false) :
    (Project.addRoot s i).projectStateVersion = s.projectStateVersion + 1 := by
  simp [Project.addRoot, h, Project.markAsDirty]

lemma stateVersion_removeFile (s : Project) (i : ScriptInfo) (d : Bool) :
    (Project.removeFile s i d).projectStateVersion = s.projectStateVersion + 1 := by
  by_cases h : Project.isRoot s i = true
  · simp [Project.removeFile, Project.removeRoot, Project.removeReferencedFile, h,
      Project.markAsDirty]
  · simp [Project.removeFile, Project.removeRoot, Project.removeReferencedFile, h,
      Project.markAsDirty]

/-! ### Helper lemmas on the root/index invariant -/

lemma rootsConsistent_addRoot (reg : String → ScriptInfo) (s : Project) (i : ScriptInfo)
    (hi : i = reg i.path) (hs : RootsConsistent reg s) :
    RootsConsistent reg (Project.addRoot s i) := by
  by_cases h : Project.isRoot s i = true
  · simpa [Project.addRoot, h] using hs
  · obtain ⟨hnd, hreg2, hmap⟩ := hs
    have hnotmem : i.path ∉ s.rootFiles.map ScriptInfo.path := by
      intro hmem
      exact h ((hmap i.path).mpr hmem)
    rw [Project.addRoot, if_neg h]
    refine ⟨?_, ?_, ?_⟩
    · simp only [Project.markAsDirty, List.map_append, List.map_cons, List.map_nil]
      rw [List.nodup_append]
      refine ⟨hnd, List.nodup_singleton _, ?_⟩
      intro a ha hb
      rw [List.mem_singleton] at hb
      subst hb
      exact hnotmem ha
    · intro j hj
      simp only [Project.markAsDirty, List.mem_append, List.mem_singleton] at hj
      rcases hj with hj | rfl
      · exact hreg2 j hj
      · exact hi
    · intro p
      simp only [Project.markAsDirty]
      rw [fmContains_fmSet_iff]
      simp only [List.map_append, List.map_cons, List.map_nil, List.mem_append,
        List.mem_singleton]
      rw [hmap p]
      exact or_comm

lemma rootsConsistent_removeFile (reg : String → ScriptInfo) (s : Project) (i : ScriptInfo)
    (d : Bool) (hi : i = reg i.path) (hs : RootsConsistent reg s) :
    RootsConsistent reg (Project.removeFile s i d) := by
  obtain ⟨hnd, hreg2, hmap⟩ := hs
  by_cases h : Project.isRoot s i = true
  · have hfm : Project.removeFile s i d = Project.markAsDirty { s with
        rootFiles := copyListRemovingItem i s.rootFiles,
        rootFilesMap := fmRemove s.rootFilesMap i.path } := by
      simp [Project.removeFile, Project.removeRoot, h]
    rw [hfm]
    refine ⟨?_, ?_, ?_⟩
    · simp only [Project.markAsDirty, copyListRemovingItem]
      exact hnd.sublist (List.Sublist.map _ (List.filter_sublist _))
    · intro j hj
      simp only [Project.markAsDirty, copyListRemovingItem, List.mem_filter] at hj
      exact hreg2 j hj.1
    · intro p
      simp only [Project.markAsDirty]
      rw [fmContains_fmRemove_iff, hmap p]
      constructor
      · rintro ⟨hp, hne⟩
        rw [List.mem_map] at hp ⊢
        obtain ⟨e, he, rfl⟩ := hp
        refine ⟨e, ?_, rfl⟩
        simp only [copyListRemovingItem, List.mem_filter, Bool.not_eq_true',
          beq_eq_false_iff_ne]
        exact ⟨he, fun hei => hne (by rw [hei])⟩
      · intro hp
        rw [List.mem_map] at hp
        obtain ⟨e, he, rfl⟩ := hp
        simp only [copyListRemovingItem, List.mem_filter, Bool.not_eq_true',
          beq_eq_false_iff_ne] at he
        obtain ⟨hem, hene⟩ := he
        refine ⟨List.mem_map.mpr ⟨e, hem, rfl⟩, ?_⟩
        intro hep
        apply hene
        calc e = reg e.path := hreg2 e hem
        _ = reg i.path := by rw [hep]
        _ = i := hi.symm
  · have hfm : Project.removeFile s i d = Project.markAsDirty s := by
      simp [Project.removeFile, Project.removeRoot, h, Project.removeReferencedFile]
    rw [hfm]
    exact ⟨hnd, hreg2, hmap⟩

lemma rootsConsistent_applyRootOp (reg : String → ScriptInfo)
    (hreg : ∀ p, (reg p).path = p) (s : Project) (op : RootOp)
    (hs : RootsConsistent reg s) : RootsConsistent reg (applyRootOp reg s op) := by
  cases op with
  | addRootOp p => exact rootsConsistent_addRoot reg s (reg p) (by rw [hreg p]) hs
  | removeFileOp p d => exact rootsConsistent_removeFile reg s (reg p) d (by rw [hreg p]) hs

/-! ### Claim theorems -/

/-- C1: when no baseline exists, or the caller's `lastKnownVersion` differs
from the last reported version, `getChangesSinceVersion` returns the full
current file list, never a diff, and memoizes that list (its key set)
together with the current structure version as the new baseline. -/
theorem getChangesSinceVersion_unknownVersion_full (env : Env) (s : Project)
    (lastKnownVersion : Option Nat)
    (h : s.lastReportedFileNames = none ∨ lastKnownVersion ≠ some s.lastReportedVersion) :
    (Project.getChangesSinceVersion env s lastKnownVersion).1.files
      = some (Project.getFileNames env s)
    ∧ (Project.getChangesSinceVersion env s lastKnownVersion).1.changes = none
    ∧ (Project.getChangesSinceVersion env s lastKnownVersion).2.lastReportedFileNames
      = some (Project.arrayToMapSelf (Project.getFileNames env s))
    ∧ (Project.getChangesSinceVersion env s lastKnownVersion).2.lastReportedVersion
      = s.projectStructureVersion := by
  have hc : ¬(s.lastReportedFileNames.isSome = true
      ∧ lastKnownVersion = some s.lastReportedVersion) := by
    rcases h with h | h
    · simp [h]
    · exact fun hx => h hx.2
  simp [Project.getChangesSinceVersion, hc]

/-- C1 witness: fresh project, no baseline, no version supplied. -/
theorem getChangesSinceVersion_unknownVersion_full_witness :
    (Project.getChangesSinceVersion env0 baseProject none).1.files
      = some (Project.getFileNames env0 baseProject) :=
  (getChangesSinceVersion_unknownVersion_full env0 baseProject none (Or.inl rfl)).1

/-- C3: round-trip — a first call with no prior baseline followed
immediately (no intervening mutation) by a call with the version just
returned yields a summary-only response: no `files`, no `changes`. -/
theorem getChangesSinceVersion_roundTrip (env : Env) (s : Project)
    (lastKnownVersion : Option Nat) (h : s.lastReportedFileNames = none) :
    (Project.getChangesSinceVersion env
        (Project.getChangesSinceVersion env s lastKnownVersion).2
        (some (Project.getChangesSinceVersion env s lastKnownVersion).1.info.version)).1.files
      = none
    ∧ (Project.getChangesSinceVersion env
        (Project.getChangesSinceVersion env s lastKnownVersion).2
        (some (Project.getChangesSinceVersion env s lastKnownVersion).1.info.version)).1.changes
      = none := by
  simp [Project.getChangesSinceVersion, h]

/-- C3 witness: the round trip on the fresh fixture project. -/
theorem getChangesSinceVersion_roundTrip_witness :
    (Project.getChangesSinceVersion env0
        (Project.getChangesSinceVersion env0 baseProject none).2
        (some (Project.getChangesSinceVersion env0 baseProject none).1.info.version)).1.files
      = none :=
  (getChangesSinceVersion_roundTrip env0 baseProject none rfl).1

/-- C6: adding a root that is already a root is idempotent — the second
`addRoot` of the same info changes nothing (root list, index and state
version included), and (being a total function) the call cannot throw. -/
theorem addRoot_idempotent :
    (∀ (s : Project) (i : ScriptInfo),
      Project.addRoot (Project.addRoot s i) i = Project.addRoot s i)
    ∧ (∀ (s : Project) (i : ScriptInfo),
      Project.isRoot s i = true → Project.addRoot s i = s) := by
  have h2 : ∀ (s : Project) (i : ScriptInfo),
      Project.isRoot s i = true → Project.addRoot s i = s := by
    intro s i h
    simp [Project.addRoot, h]
  refine ⟨?_, h2⟩
  intro s i
  by_cases h : Project.isRoot s i = true
  · rw [h2 s i h]
    exact h2 s i h
  · have h1 : Project.isRoot (Project.addRoot s i) i = true := by
      rw [Project.addRoot, if_neg h]
      simp only [Project.isRoot, Project.markAsDirty]
      exact (fmContains_fmSet_iff _ _ _ _).mpr (Or.inl rfl)
    exact h2 _ i h1

/-- C6 witness: re-adding the existing root of `rootedProject`. -/
theorem addRoot_idempotent_witness :
    Project.addRoot rootedProject infoA = rootedProject :=
  addRoot_idempotent.2 rootedProject infoA (by decide)

/-- C2: with an existing baseline, a matching `lastKnownVersion` and a
structure version that has moved on, the reported diff is exactly set
membership — `added` holds the current-but-not-reported names, `removed`
the reported-but-not-current names, a name in both sets appears in
neither — and the baseline is re-memoized to the current set and
structure version. -/
theorem getChangesSinceVersion_diff (env : Env) (s : Project) (last : List String)
    (lastKnownVersion : Option Nat)
    (h1 : s.lastReportedFileNames = some last)
    (h2 : lastKnownVersion = some s.lastReportedVersion)
    (h3 : s.projectStructureVersion ≠ s.lastReportedVersion) :
    (Project.getChangesSinceVersion env s lastKnownVersion).1.files = none
    ∧ ((Project.getChangesSinceVersion env s lastKnownVersion).1.changes).isSome = true
    ∧ (∀ x, x ∈ (((Project.getChangesSinceVersion env s lastKnownVersion).1.changes).getD
            { added := [], removed := [] }).added
        ↔ (x ∈ Project.getFileNames env s ∧ x ∉ last))
    ∧ (∀ x, x ∈ (((Project.getChangesSinceVersion env s lastKnownVersion).1.changes).getD
            { added := [], removed := [] }).removed
        ↔ (x ∈ last ∧ x ∉ Project.getFileNames env s))
    ∧ (∀ x, x ∈ Project.getFileNames env s → x ∈ last →
        (x ∉ (((Project.getChangesSinceVersion env s lastKnownVersion).1.changes).getD
            { added := [], removed := [] }).added
         ∧ x ∉ (((Project.getChangesSinceVersion env s lastKnownVersion).1.changes).getD
            { added := [], removed := [] }).removed))
    ∧ (Project.getChangesSinceVersion env s lastKnownVersion).2.lastReportedFileNames
        = some (Project.arrayToMapSelf (Project.getFileNames env s))
    ∧ (Project.getChangesSinceVersion env s lastKnownVersion).2.lastReportedVersion
        = s.projectStructureVersion := by
  have hadd : ∀ x, x ∈ (Project.arrayToMapSelf (Project.getFileNames env s)).filter
        (fun id => !(last.contains id))
      ↔ (x ∈ Project.getFileNames env s ∧ x ∉ last) := by
    intro x
    simp [Project.arrayToMapSelf, List.mem_filter, List.mem_dedup]
  have hrem : ∀ x, x ∈ last.filter
        (fun id => !((Project.arrayToMapSelf (Project.getFileNames env s)).contains id))
      ↔ (x ∈ last ∧ x ∉ Project.getFileNames env s) := by
    intro x
    simp [Project.arrayToMapSelf, List.mem_filter, List.mem_dedup]
  have hres : Project.getChangesSinceVersion env s lastKnownVersion
      = ({ info := { projectName := s.projectName, version := s.projectStructureVersion,
                     isInferred := s.projectKind = ProjectKind.Inferred },
           files := none,
           changes := some { added := (Project.arrayToMapSelf (Project.getFileNames env s)).filter
                                (fun id => !(last.contains id)),
                             removed := last.filter
                                (fun id => !((Project.arrayToMapSelf
                                    (Project.getFileNames env s)).contains id)) } },
         { s with lastReportedFileNames := some (Project.arrayToMapSelf (Project.getFileNames env s)),
                  lastReportedVersion := s.projectStructureVersion }) := by
    simp only [Project.getChangesSinceVersion, h1, h2, Option.isSome_some, Option.getD_some,
      and_self, if_true, if_neg h3]
  rw [hres]
  refine ⟨rfl, rfl, hadd, hrem, ?_, rfl, rfl⟩
  intro x hx hl
  exact ⟨fun hmem => ((hadd x).mp hmem).2 hl, fun hmem => ((hrem x).mp hmem).2 hx⟩

/-- C2 witness: on `diffProject`, `c.ts` (newly present) is reported as
added. -/
theorem getChangesSinceVersion_diff_witness :
    "c.ts" ∈ (((Project.getChangesSinceVersion env0 diffProject (some 1)).1.changes).getD
        { added := [], removed := [] }).added :=
  ((getChangesSinceVersion_diff env0 diffProject ["a.ts", "b.ts"] (some 1) rfl rfl
      (by decide)).2.2.1 "c.ts").mpr (by decide)


/-- C4 counterexample: a recompute can bump `structureVersion` even when
the resulting file set is identical to the previous one — the engine hands
back a distinct program object (`progB`) with the same source files while
the old program's structure was not reused, and the version still moves. -/
theorem structureVersion_bump_without_fileSet_change :
    (Project.updateGraph structProject progB).projectStructureVersion
      ≠ structProject.projectStructureVersion
    ∧ structProject.program = some progA
    ∧ progB.sourceFiles = progA.sourceFiles
    ∧ Project.getFileNames env0 (Project.updateGraph structProject progB)
      = Project.getFileNames env0 structProject := by decide

/-- C4 (amended): `structureVersion` is non-decreasing over every operation
sequence; it moves only across an `updateGraph` with the language service
enabled where there was no previous program, or the engine returned a
distinct program whose predecessor's structure was not reused; and an
`updateGraph` while the language service is disabled changes nothing. -/
theorem structureVersion_monotone :
    (∀ (env : Env) (ops : List POp) (s : Project),
      s.projectStructureVersion ≤ (runOps env s ops).projectStructureVersion)
    ∧ (∀ (env : Env) (op : POp) (s : Project),
        (applyOp env s op).projectStructureVersion ≠ s.projectStructureVersion →
        ∃ p, op = POp.updateGraph p ∧ s.languageServiceEnabled = true ∧
          (s.program = none ∨ (s.program ≠ some p
            ∧ ∀ q, s.program = some q → q.structureIsReused = false)))
    ∧ (∀ (env : Env) (p : Program) (s : Project),
        s.languageServiceEnabled = false → applyOp env s (POp.updateGraph p) = s) := by
  refine ⟨?_, ?_, ?_⟩
  · intro env ops
    induction ops with
    | nil => intro s; exact le_refl _
    | cons op ops ih =>
      intro s
      exact le_trans (structureVersion_applyOp_le env op s) (ih (applyOp env s op))
  · intro env op s hne
    cases op with
    | addRoot i => exact absurd (structureVersion_addRoot s i) hne
    | removeFile i d => exact absurd (structureVersion_removeFile s i d) hne
    | setCompilerOptions o => exact absurd (structureVersion_setCompilerOptions s o) hne
    | getChanges v => exact absurd (structureVersion_getChanges env s v) hne
    | updateGraph p =>
      by_cases he : s.languageServiceEnabled = false
      · exact absurd (congrArg Project.projectStructureVersion (updateGraph_disabled s p he))
          hne
      · have he2 : s.languageServiceEnabled = true := by
          cases hb : s.languageServiceEnabled
          · exact absurd hb he
          · rfl
        refine ⟨p, rfl, he2, ?_⟩
        cases hq : s.program with
        | none => exact Or.inl rfl
        | some q =>
          by_cases hc : q ≠ p ∧ q.structureIsReused = false
          · refine Or.inr ⟨by simp [hc.1], ?_⟩
            intro r hr
            cases Option.some.inj hr
            exact hc.2
          · exfalso
            apply hne
            show (Project.updateGraph s p).projectStructureVersion = s.projectStructureVersion
            simp only [Project.updateGraph]
            rw [if_neg he]
            simp only [hq]
            rw [if_neg hc]
  · intro env p s h
    simp only [applyOp]
    exact updateGraph_disabled s p h

/-- C4 witness: a disabled-language-service recompute is the identity on
the concrete disabled fixture. -/
theorem structureVersion_monotone_witness :
    applyOp env0 disabledProject (POp.updateGraph progA) = disabledProject :=
  structureVersion_monotone.2.2 env0 progA disabledProject rfl

/-- C5 counterexample: `addRoot` of a file that is already a root does NOT
increase the state version (it does not even call `markAsDirty`), so
"stateVersion strictly increases on every addRoot call" fails. -/
theorem addRoot_existing_stateVersion_unchanged :
    ¬ rootedProject.projectStateVersion
        < (Project.addRoot rootedProject infoA).projectStateVersion := by decide

/-- C5 (amended): the state version strictly increases on every `addRoot`
whose argument is not already a root, on every `removeFile` call (even for
a file that is neither root nor referenced — it always marks dirty), and on
every `setCompilerOptions` call with options present, non-empty records
included. -/
theorem stateVersion_strict_increase :
    (∀ (s : Project) (i : ScriptInfo), Project.isRoot s i = false →
      s.projectStateVersion < (Project.addRoot s i).projectStateVersion)
    ∧ (∀ (s : Project) (i : ScriptInfo) (d : Bool),
      s.projectStateVersion < (Project.removeFile s i d).projectStateVersion)
    ∧ (∀ (s : Project) (opts : CompilerOpts),
      s.projectStateVersion < (Project.setCompilerOptions s (some opts)).projectStateVersion) := by
  refine ⟨?_, ?_, ?_⟩
  · intro s i h
    rw [stateVersion_addRoot_new s i h]
    exact Nat.lt_succ_self _
  · intro s i d
    rw [stateVersion_removeFile s i d]
    exact Nat.lt_succ_self _
  · intro s opts
    simp [Project.setCompilerOptions, Project.markAsDirty]

/-- C5 witness: adding a fresh root to the fixture project bumps the state
version. -/
theorem stateVersion_strict_increase_witness :
    baseProject.projectStateVersion < (Project.addRoot baseProject infoA).projectStateVersion :=
  stateVersion_strict_increase.1 baseProject infoA (by decide)

/-- C7: across every sequence of `addRoot`/`removeFile` operations drawing
script infos from the registry (which keeps exactly one info per path), the
key set of `rootFilesMap` equals the path set of `rootFiles`, duplicate
free. Quantifying over all sequences from any consistent start state covers
every observation point, since each prefix is itself such a sequence. -/
theorem rootFilesIndex_matches_rootFiles (reg : String → ScriptInfo)
    (hreg : ∀ p, (reg p).path = p) (s : Project) (hs : RootsConsistent reg s)
    (ops : List RootOp) :
    RootIndexInvariant (runRootOps reg s ops) := by
  suffices h : RootsConsistent reg (runRootOps reg s ops) by
    exact ⟨h.2.2, h.1⟩
  induction ops generalizing s with
  | nil => exact hs
  | cons op ops ih => exact ih _ (rootsConsistent_applyRootOp reg hreg s op hs)

/-- C7 witness: a concrete add/remove sequence on the empty fixture. -/
theorem rootFilesIndex_matches_rootFiles_witness :
    RootIndexInvariant (runRootOps reg0 baseProject
      [RootOp.addRootOp "a.ts", RootOp.addRootOp "b.ts", RootOp.removeFileOp "a.ts" true]) :=
  rootFilesIndex_matches_rootFiles reg0 (fun _ => rfl) baseProject
    (by refine ⟨?_, ?_, ?_⟩ <;> simp [baseProject, fmContains]) _

/-- C8 counterexample: `setCompilerOptions` with an EMPTY options record is
not a no-op — a JavaScript object is truthy even without properties, so the
stored options, the binding settings and the state version all change. -/
theorem setCompilerOptions_empty_not_noop :
    (Project.setCompilerOptions optSProject (some emptyCompilerOpts)).projectStateVersion
      ≠ optSProject.projectStateVersion
    ∧ (Project.setCompilerOptions optSProject (some emptyCompilerOpts)).compilerOptions
      ≠ optSProject.compilerOptions
    ∧ (Project.setCompilerOptions optSProject (some emptyCompilerOpts)).lsHostSettings
      ≠ optSProject.lsHostSettings := by decide

/-- C8 (amended): `setCompilerOptions` is a silent no-op exactly when the
argument is absent (`undefined`/`null`); with ANY present record — the
empty record included — it forces `allowNonTsExtensions`, replaces the
stored options, pushes them into the active binding and increments the
state version. -/
theorem setCompilerOptions_present_behavior :
    (∀ s : Project, Project.setCompilerOptions s none = s)
    ∧ (∀ (s : Project) (opts : CompilerOpts),
        Project.setCompilerOptions s (some opts)
          = { s with
              compilerOptions := some { opts with allowNonTsExtensions := true },
              lsHostSettings := some { opts with allowNonTsExtensions := true },
              projectStateVersion := s.projectStateVersion + 1 }) :=
  ⟨fun _ => rfl, fun _ _ => rfl⟩

/-- C9 counterexample: `watchConfigFile` has no registration guard — a
second call registers one more watch with the host and overwrites the
stored handle, so the three watch operations are not all idempotent. -/
theorem watchConfigFile_not_idempotent :
    ((cp0.watchConfigFile host0).1.watchConfigFile
        (cp0.watchConfigFile host0).2).2.registered.length
      = (cp0.watchConfigFile host0).2.registered.length + 1
    ∧ ((cp0.watchConfigFile host0).1.watchConfigFile
        (cp0.watchConfigFile host0).2).1.projectFileWatcher
      ≠ (cp0.watchConfigFile host0).1.projectFileWatcher := by decide

/-- C9 (amended): only `watchConfigDirectory` is idempotent (a repeated
call is the exact identity); `watchConfigFile` registers a fresh host watch
on every call, and `watchWildcards` re-registers its wildcard watches on
every call (two calls on the one-wildcard fixture yield two host
registrations). -/
theorem watch_registration_behavior :
    (∀ (cp : ConfiguredProject) (h : HostState),
      ConfiguredProject.watchConfigDirectory
          (ConfiguredProject.watchConfigDirectory cp h).1
          (ConfiguredProject.watchConfigDirectory cp h).2
        = ConfiguredProject.watchConfigDirectory cp h)
    ∧ (∀ (cp : ConfiguredProject) (h : HostState),
        ((ConfiguredProject.watchConfigFile cp h).2).registered.length
          = h.registered.length + 1)
    ∧ (((cp0.watchWildcards host0).1.watchWildcards
          (cp0.watchWildcards host0).2).2.registered.length = 2
       ∧ (cp0.watchWildcards host0).2.registered.length = 1) := by
  refine ⟨?_, ?_, by decide⟩
  · intro cp h
    by_cases hd : cp.directoryWatcher.isSome = true
    · simp [ConfiguredProject.watchConfigDirectory, hd]
    · simp [ConfiguredProject.watchConfigDirectory, hd, hostWatch]
  · intro cp h
    simp [ConfiguredProject.watchConfigFile, hostWatch]

/-- C10 counterexample: the registry knows `a.ts` and it is open, yet
`containsFile` returns `undefined` (not a boolean) because no program has
been computed — `containsScriptInfo` evaluates `this.program && ...` with
`this.program` undefined. -/
theorem containsFile_noProgram_undefined :
    env0.registry "a.ts" = some infoA
    ∧ infoA.isOpen = true
    ∧ Project.containsFile env0 baseProject "a.ts" false = none := by decide

/-- C10 (amended): `containsFile` yields `undefined` when the registry has
no entry, when `requireOpen` holds but the file is closed, or when no
program has been computed; it yields a boolean — whether the current
program contains the file's path — only when the registry knows the file,
the open requirement is satisfied AND a program exists. -/
theorem containsFile_characterization (env : Env) (s : Project) (fn : String) (ro : Bool) :
    (env.registry fn = none → Project.containsFile env s fn ro = none)
    ∧ (∀ i, env.registry fn = some i → ro = true → i.isOpen = false →
        Project.containsFile env s fn ro = none)
    ∧ (∀ i, env.registry fn = some i → (ro = false ∨ i.isOpen = true) →
        s.program = none → Project.containsFile env s fn ro = none)
    ∧ (∀ i p, env.registry fn = some i → (ro = false ∨ i.isOpen = true) →
        s.program = some p →
        Project.containsFile env s fn ro
          = some ((p.sourceFiles.find? (fun sf => sf.path == i.path)).isSome)) := by
  refine ⟨?_, ?_, ?_, ?_⟩
  · intro h
    simp [Project.containsFile, h]
  · intro i hi hro hopen
    simp [Project.containsFile, hi, hro, hopen]
  · intro i hi hcond hp
    simp only [Project.containsFile, hi]
    rw [if_pos hcond]
    simp [Project.containsScriptInfo, hp]
  · intro i p hi hcond hp
    simp only [Project.containsFile, hi]
    rw [if_pos hcond]
    simp [Project.containsScriptInfo, hp]

/-- C10 witness: with a program present, `containsFile` answers with the
program-membership boolean on the fixture. -/
theorem containsFile_characterization_witness :
    Project.containsFile env0 progProject "a.ts" false
      = some ((progA.sourceFiles.find? (fun sf => sf.path == infoA.path)).isSome) :=
  (containsFile_characterization env0 progProject "a.ts" false).2.2.2 infoA progA
    (by decide) (Or.inl rfl) rfl

end TsServer
